import Mathlib

set_option maxHeartbeats 1000000
set_option maxRecDepth 100000

/-!
Verification development for the FinDocAI upload pipeline core.

The embedding covers the three parts of the source that the properties
below are about:

* `cleanText` — the OCR text normalizer (ordered substitution table
  followed by regex-based spacing, date and account-number passes);
* `validTransactions` / `validate` — the validation and sanitization of
  the candidate transactions returned by the LLM extraction service;
* `persistDocument` — the orchestrator's persistence step with its
  document-only retry.

Text is modelled as `List Char`.  The JavaScript regex passes of
`cleanText` are modelled by dedicated leftmost-match scanners that follow
the semantics of `String.prototype.replace` with a global regex: scan for
the leftmost match, emit the replacement, continue after the match, and on
a failed match attempt advance by one character.
-/

/-! ### Character classes (ASCII, as used by the JS regexes) -/

def isDigitCh (c : Char) : Bool := 48 ≤ c.toNat && c.toNat ≤ 57

def isAlphaCh (c : Char) : Bool :=
  (65 ≤ c.toNat && c.toNat ≤ 90) || (97 ≤ c.toNat && c.toNat ≤ 122)

/-- JS `\s` restricted to the common ASCII whitespace characters. -/
def isWsCh (c : Char) : Bool :=
  c == ' ' || c == '\t' || c == '\n' || c == '\r' || c.toNat == 12 || c.toNat == 11

def isPunctCh (c : Char) : Bool := c == '.' || c == ','

/-! ### Literal global replacement (the substitution table pass) -/

/-- `matchesAt pat l` holds when `pat` is a leading segment of `l`. -/
def matchesAt : List Char → List Char → Bool
  | [], _ => true
  | _ :: _, [] => false
  | p :: ps, c :: cs => p == c && matchesAt ps cs

/-- Fuel-driven worker for `replaceAll`; the fuel only bounds the
recursion depth (one unit per character of input), so with fuel at least
the input length the fuel never runs out. -/
def replaceAllF (pat rep : List Char) : Nat → List Char → List Char
  | 0, l => l
  | _ + 1, [] => []
  | fuel + 1, c :: cs =>
    match pat with
    | [] => c :: cs
    | p :: ps =>
      if matchesAt (p :: ps) (c :: cs) then
        rep ++ replaceAllF pat rep fuel (cs.drop ps.length)
      else
        c :: replaceAllF pat rep fuel cs

/-- Global, leftmost, non-overlapping literal replacement:
`text.replace(new RegExp(pat, 'g'), rep)` for a pattern without regex
metacharacters (none of the table entries contain any). -/
def replaceAll (pat rep : List Char) (l : List Char) : List Char :=
  replaceAllF pat rep l.length l

/-! ### Generic leftmost-match scanner for the regex passes

Each `try` function attempts a match at the very start of its input and, on
success, returns the replacement text together with the input remaining
after the matched span. -/

def scanWithF (t : List Char → Option (List Char × List Char)) :
    Nat → List Char → List Char
  | 0, l => l
  | _ + 1, [] => []
  | fuel + 1, c :: cs =>
    match t (c :: cs) with
    | some (rep, rest) =>
      if rest.length < cs.length + 1 then rep ++ scanWithF t fuel rest
      else c :: scanWithF t fuel cs
    | none => c :: scanWithF t fuel cs

def scanWith (t : List Char → Option (List Char × List Char)) (l : List Char) :
    List Char :=
  scanWithF t l.length l

/-- Split off the maximal leading run satisfying `p`. -/
def takeRun (p : Char → Bool) : List Char → List Char × List Char
  | [] => ([], [])
  | c :: cs =>
    if p c then
      let (w, r) := takeRun p cs
      (c :: w, r)
    else ([], c :: cs)

/-- Take exactly `n` leading digit characters, or fail. -/
def takeDigits : Nat → List Char → Option (List Char × List Char)
  | 0, l => some ([], l)
  | _ + 1, [] => none
  | n + 1, c :: cs =>
    if isDigitCh c then
      match takeDigits n cs with
      | some (ds, r) => some (c :: ds, r)
      | none => none
    else none

/-- Match `(C1)\s+(C2)` at the start, replacing with `$1$2`
(the four whitespace-collapsing passes). -/
def tryCollapse (p1 p2 : Char → Bool) (l : List Char) : Option (List Char × List Char) :=
  match l with
  | [] => none
  | c :: cs =>
    if p1 c then
      match takeRun isWsCh cs with
      | ([], _) => none
      | (_ :: _, d :: rest) => if p2 d then some ([c, d], rest) else none
      | (_ :: _, []) => none
    else none

/-- Tail of the `(\d{1,2})\s+([A-Za-z]+),\s+(\d{4})` pattern after the
day digits `ds`: mandatory whitespace, a letter run, a comma, mandatory
whitespace and a four-digit year.  Replacement `$1 $2, $3`. -/
def tryDayMonthTail (ds : List Char) (l : List Char) : Option (List Char × List Char) :=
  match takeRun isWsCh l with
  | ([], _) => none
  | (_ :: _, l1) =>
    match takeRun isAlphaCh l1 with
    | ([], _) => none
    | (as@(_ :: _), l2) =>
      match l2 with
      | ',' :: l3 =>
        match takeRun isWsCh l3 with
        | ([], _) => none
        | (_ :: _, l4) =>
          match takeDigits 4 l4 with
          | some (ys, l5) => some (ds ++ ' ' :: (as ++ ',' :: ' ' :: ys), l5)
          | none => none
      | _ => none

/-- The date pass `(\d{1,2})\s+([A-Za-z]+),\s+(\d{4})` → `$1 $2, $3`,
with the greedy `\d{1,2}` tried with two digits before one. -/
def tryDayMonth (l : List Char) : Option (List Char × List Char) :=
  match l with
  | [] => none
  | [c1] => if isDigitCh c1 then tryDayMonthTail [c1] [] else none
  | c1 :: c2 :: rest =>
    if isDigitCh c1 then
      if isDigitCh c2 then
        (tryDayMonthTail [c1, c2] rest) <|> (tryDayMonthTail [c1] (c2 :: rest))
      else tryDayMonthTail [c1] (c2 :: rest)
    else none

/-- Tail of `([A-Za-z]+)\s+(\d{1,2}),\s+(\d{4})` after the day digits
`ds`: a comma, mandatory whitespace and a four-digit year. -/
def tryMonthDayFinish (as ds : List Char) (l : List Char) : Option (List Char × List Char) :=
  match l with
  | ',' :: l3 =>
    match takeRun isWsCh l3 with
    | ([], _) => none
    | (_ :: _, l4) =>
      match takeDigits 4 l4 with
      | some (ys, l5) => some (as ++ ' ' :: (ds ++ ',' :: ' ' :: ys), l5)
      | none => none
  | _ => none

/-- The date pass `([A-Za-z]+)\s+(\d{1,2}),\s+(\d{4})` → `$1 $2, $3`. -/
def tryMonthDay (l : List Char) : Option (List Char × List Char) :=
  match takeRun isAlphaCh l with
  | ([], _) => none
  | (as@(_ :: _), l1) =>
    match takeRun isWsCh l1 with
    | ([], _) => none
    | (_ :: _, l2) =>
      match l2 with
      | [] => none
      | [c1] => if isDigitCh c1 then tryMonthDayFinish as [c1] [] else none
      | c1 :: c2 :: rest =>
        if isDigitCh c1 then
          if isDigitCh c2 then
            (tryMonthDayFinish as [c1, c2] rest) <|> (tryMonthDayFinish as [c1] (c2 :: rest))
          else tryMonthDayFinish as [c1] (c2 :: rest)
        else none

/-- The account-number passes `(\d{a})\s*-\s*(\d{b})\s*-\s*(\d{c})` →
`$1-$2-$3` (with `(a,b,c)` being `(4,3,3)` and `(3,4,4)` in the source). -/
def tryAcct (a b c : Nat) (l : List Char) : Option (List Char × List Char) :=
  match takeDigits a l with
  | none => none
  | some (d1, l1) =>
    match (takeRun isWsCh l1).2 with
    | '-' :: l3 =>
      match takeDigits b (takeRun isWsCh l3).2 with
      | none => none
      | some (d2, l5) =>
        match (takeRun isWsCh l5).2 with
        | '-' :: l7 =>
          match takeDigits c (takeRun isWsCh l7).2 with
          | none => none
          | some (d3, l9) => some (d1 ++ '-' :: (d2 ++ '-' :: d3), l9)
        | _ => none
    | _ => none

/-! ### The substitution table, in the source's insertion order -/

def replacementTable : List (String × String) :=
  [("o", "0"), ("O", "0"),
   ("l", "1"), ("L", "1"),
   ("s", "5"), ("S", "5"),
   ("g", "6"), ("G", "6"),
   ("t", "7"), ("T", "7"),
   ("b", "8"), ("B", "8"),
   ("q", "9"), ("Q", "9"),
   ("z", "2"), ("Z", "2"),
   ("8ank", "Bank"),
   ("8u5ine55", "Business"),
   ("Acc0un7", "Account"),
   ("5a7emen7", "Statement"),
   ("R0ya1", "Royal"),
   ("M0N7REA1", "Montreal"),
   ("Ju1y", "July"),
   ("Au6u57", "August"),
   ("57W", "St W"),
   ("0N", "ON"),
   ("M5V", "MSV"),
   ("P1ea5e", "Please"),
   ("c0n7ac7", "contact"),
   ("8ankin6", "Banking"),
   ("repre5en7a7ive", "representative"),
   ("ca11", "call"),
   ("Acc0un75ummary", "Account Summary"),
   ("E55en7ia15", "Essentials"),
   ("Varia81e", "Variable"),
   ("Pricin6", "Pricing"),
   ("PER7H", "Perth"),
   ("0penin6", "Opening"),
   ("dep05i75", "deposits"),
   ("credi75", "credits"),
   ("che9ue5", "cheques"),
   ("de8i75", "debits"),
   ("C105in6", "Closing"),
   ("Ac7ivi7y", "Activity"),
   ("De7ai15", "Details"),
   ("De5crip7i0n", "Description"),
   ("Che9ue", "Cheque"),
   ("De8i7", "Debit"),
   ("Dep05i7", "Deposit"),
   ("Credi7", "Credit"),
   ("8a1ance", "Balance"),
   ("Mi5c", "Misc"),
   ("Paymen7", "Payment"),
   ("FEE5", "FEE"),
   ("In5urance", "Insurance"),
   ("5UN", "SUN"),
   ("1IFE", "LIFE"),
   ("RE6U1AR", "REGULAR"),
   ("C0MMERCIA1", "COMMERCIAL"),
   ("IN5", "INS"),
   ("FEDERA7ED", "FEDERATED"),
   ("IN5UR", "INSUR")]

/-- The `Object.entries(replacements).forEach` loop: apply each table
entry as a global replacement, in table order. -/
def substitutionPass (l : List Char) : List Char :=
  replacementTable.foldl (fun acc pr => replaceAll pr.1.data pr.2.data acc) l

/-- The full `cleanText` pipeline on character lists: substitution table,
four whitespace-collapsing passes, two date passes, two account-number
passes, in the source's order. -/
def cleanTextL (l : List Char) : List Char :=
  scanWith (tryAcct 3 4 4)
    (scanWith (tryAcct 4 3 3)
      (scanWith tryMonthDay
        (scanWith tryDayMonth
          (scanWith (tryCollapse isDigitCh isAlphaCh)
            (scanWith (tryCollapse isAlphaCh isDigitCh)
              (scanWith (tryCollapse isPunctCh isDigitCh)
                (scanWith (tryCollapse isDigitCh isDigitCh)
                  (substitutionPass l))))))))

def cleanText (s : String) : String := ⟨cleanTextL s.data⟩

/-- Substring occurrence test (the spec scenario's `contains`). -/
def occursIn (pat : List Char) : List Char → Bool
  | [] => matchesAt pat []
  | c :: cs => matchesAt pat (c :: cs) || occursIn pat cs

/-! ### The JavaScript value model for the untrusted LLM response

A candidate transaction field can hold anything; we model the JS values
the validator inspects: numbers (with NaN and the infinities), strings,
null, undefined and booleans.  Finite numbers are modelled as rationals. -/

inductive JSNum where
  | nan
  | posInf
  | negInf
  | fin (q : ℚ)
deriving DecidableEq

/-- JS `isNaN` on a number value. -/
def JSNum.isNaNB : JSNum → Bool
  | .nan => true
  | _ => false

inductive JSValue where
  | num (n : JSNum)
  | str (s : List Char)
  | nullV
  | undef
  | boolV (b : Bool)
deriving DecidableEq

/-- JS truthiness (`!v` is the negation of this). -/
def jsFalsy : JSValue → Bool
  | .num .nan => true
  | .num (.fin q) => q == 0
  | .num _ => false
  | .str s => s.isEmpty
  | .nullV => true
  | .undef => true
  | .boolV b => !b

def JSValue.isStrB : JSValue → Bool
  | .str _ => true
  | _ => false

/-- The amount filter of `validTransactions`:
`typeof tx.amount === 'number' && !isNaN(tx.amount)`. -/
def amountOk : JSValue → Bool
  | .num n => !n.isNaNB
  | _ => false

/-- A candidate transaction as received from the extraction service:
every field is an untrusted JS value. -/
structure Candidate where
  date : JSValue
  description : JSValue
  amount : JSValue
  type : JSValue
  category : JSValue
deriving DecidableEq

/-! ### Calendar dates

`new Date(v)` / `isNaN(date.getTime())` are modelled by a parser for the
ISO `YYYY-MM-DD` date strings the code itself writes back via
`toISOString().split('T')[0]`; any other value is modelled as failing to
parse (an invalid date).  The parser range-checks month and day exactly as
the engine's ISO date parsing does (`2024-02-31` is an invalid date). -/

structure SimpleDate where
  year : Nat
  month : Nat
  day : Nat
deriving DecidableEq

def isLeapYear (y : Nat) : Bool := (y % 4 == 0 && y % 100 != 0) || y % 400 == 0

def daysInMonth (y m : Nat) : Nat :=
  if m == 2 then (if isLeapYear y then 29 else 28)
  else if m == 4 || m == 6 || m == 9 || m == 11 then 30
  else 31

def SimpleDate.validB (d : SimpleDate) : Bool :=
  1 ≤ d.month && d.month ≤ 12 && 1 ≤ d.day && d.day ≤ daysInMonth d.year d.month

def digitVal (c : Char) : Nat := c.toNat - 48

def isoFields (y1 y2 y3 y4 m1 m2 d1 d2 : Char) : SimpleDate :=
  ⟨digitVal y1 * 1000 + digitVal y2 * 100 + digitVal y3 * 10 + digitVal y4,
   digitVal m1 * 10 + digitVal m2,
   digitVal d1 * 10 + digitVal d2⟩

def parseISODate (s : List Char) : Option SimpleDate :=
  match s with
  | [y1, y2, y3, y4, h1, m1, m2, h2, d1, d2] =>
    if h1 == '-' && h2 == '-' && isDigitCh y1 && isDigitCh y2 && isDigitCh y3 &&
       isDigitCh y4 && isDigitCh m1 && isDigitCh m2 && isDigitCh d1 && isDigitCh d2 then
      if (isoFields y1 y2 y3 y4 m1 m2 d1 d2).validB then
        some (isoFields y1 y2 y3 y4 m1 m2 d1 d2)
      else none
    else none
  | _ => none

/-- `new Date(v)` followed by the `isNaN(getTime())` check: `some d` when
the value parses to the valid calendar date `d`, `none` otherwise. -/
def jsDateParse : JSValue → Option SimpleDate
  | .str s => parseISODate s
  | _ => none

/-- Fuel-driven worker for `natDigits` (one unit of fuel per digit). -/
def natDigitsF : Nat → Nat → List Char
  | 0, n => [Char.ofNat (48 + n % 10)]
  | fuel + 1, n =>
    if n < 10 then [Char.ofNat (48 + n)]
    else natDigitsF fuel (n / 10) ++ [Char.ofNat (48 + n % 10)]

/-- Decimal digits of a natural number. -/
def natDigits (n : Nat) : List Char := natDigitsF n n

def pad2 (n : Nat) : List Char :=
  if n < 10 then '0' :: natDigits n else natDigits n

def pad4 (n : Nat) : List Char :=
  if n < 10 then '0' :: '0' :: '0' :: natDigits n
  else if n < 100 then '0' :: '0' :: natDigits n
  else if n < 1000 then '0' :: natDigits n
  else natDigits n

/-- `new Date().toISOString().split('T')[0]` for the processing date. -/
def dateToISO (d : SimpleDate) : List Char :=
  pad4 d.year ++ '-' :: (pad2 d.month ++ '-' :: pad2 d.day)

/-! ### Number / string coercions -/

def digitsToNat (ds : List Char) : Nat := ds.foldl (fun a c => a * 10 + digitVal c) 0

/-- JS `parseFloat`, modelled for plain decimal strings (optional sign,
integer digits, optional fractional digits); any other shape yields NaN.
On the validated path this is unreachable: the amount filter only lets
number-typed values through to the mapping stage. -/
def parseFloatL (s : List Char) : JSNum :=
  let s1 := (takeRun isWsCh s).2
  let (neg, s2) : Bool × List Char :=
    match s1 with
    | '-' :: r => (true, r)
    | '+' :: r => (false, r)
    | r => (false, r)
  let (ip, s3) := takeRun isDigitCh s2
  let fp : List Char :=
    match s3 with
    | '.' :: r => (takeRun isDigitCh r).1
    | _ => []
  if ip.isEmpty && fp.isEmpty then .nan
  else
    let v : ℚ := (digitsToNat ip : ℚ) + (digitsToNat fp : ℚ) / ((10 : ℚ) ^ fp.length)
    .fin (if neg then -v else v)

def jsParseFloat : JSValue → JSNum
  | .str s => parseFloatL s
  | .num n => n
  | _ => .nan

/-- JS `String(v)`.  On the validated path this is only ever applied to a
non-empty string (the filter has already replaced every other description);
the other cases follow the standard JS renderings, with finite numbers
rendered in decimal for integral values only (non-integral rendering is
unreachable here and modelled by the integer part). -/
def jsToString : JSValue → List Char
  | .str s => s
  | .nullV => "null".data
  | .undef => "undefined".data
  | .boolV true => "true".data
  | .boolV false => "false".data
  | .num .nan => "NaN".data
  | .num .posInf => "Infinity".data
  | .num .negInf => "-Infinity".data
  | .num (.fin q) =>
    if q.num < 0 then '-' :: natDigits (-q.num).toNat else natDigits q.num.toNat

/-! ### The validator -/

inductive TxType where
  | INCOME
  | EXPENSE
deriving DecidableEq

/-- A persistable transaction record as assembled by the mapping stage. -/
structure Transaction where
  date : SimpleDate
  description : List Char
  amount : JSNum
  type : TxType
  categoryId : String
  userId : String
deriving DecidableEq

/-- The in-place repairs the filter callback performs on a candidate that
passed the amount check: unknown type becomes `EXPENSE`, an unparseable
date becomes today's ISO date string, and a missing / non-string / empty
description becomes the fixed placeholder. -/
def fixCandidate (today : SimpleDate) (tx : Candidate) : Candidate :=
  let tx1 :=
    if tx.type ≠ JSValue.str "INCOME".data ∧ tx.type ≠ JSValue.str "EXPENSE".data then
      { tx with type := JSValue.str "EXPENSE".data }
    else tx
  let tx2 :=
    if (jsDateParse tx1.date).isNone then
      { tx1 with date := JSValue.str (dateToISO today) }
    else tx1
  if jsFalsy tx2.description || !tx2.description.isStrB then
    { tx2 with description := JSValue.str "Unnamed transaction".data }
  else tx2

/-- The mapping stage of `validTransactions`: re-parse the date (falling
back to today), coerce the amount, truncate the description to 255
characters and close the type into the enum. -/
def toTransaction (today : SimpleDate) (categoryId userId : String) (tx : Candidate) :
    Transaction :=
  let date :=
    match jsDateParse tx.date with
    | some d => d
    | none => today
  let amount :=
    match tx.amount with
    | .num n => n
    | v => jsParseFloat v
  { date := date
    description := (jsToString tx.description).take 255
    amount := if amount.isNaNB then .fin 0 else amount
    type := if tx.type = JSValue.str "INCOME".data then .INCOME else .EXPENSE
    categoryId := categoryId
    userId := userId }

def defaultTxDescription : List Char :=
  "Default transaction (no valid transactions detected)".data

/-- The synthetic transaction pushed when no candidate survived. -/
def placeholderTx (today : SimpleDate) (categoryId userId : String) : Transaction :=
  { date := today
    description := defaultTxDescription
    amount := .fin 100
    type := .EXPENSE
    categoryId := categoryId
    userId := userId }

/-- `analysis.transactions.filter(...).map(...)`: the list of transactions
built from the candidates that passed the amount filter. -/
def acceptedBase (today : SimpleDate) (categoryId userId : String)
    (cands : List Candidate) : List Transaction :=
  (cands.filter (fun c => amountOk c.amount)).map
    (fun c => toTransaction today categoryId userId (fixCandidate today c))

/-- `validTransactions` including the empty-batch fallback push. -/
def validTransactions (today : SimpleDate) (categoryId userId : String)
    (cands : List Candidate) : List Transaction :=
  let base := acceptedBase today categoryId userId cands
  if base.isEmpty then [placeholderTx today categoryId userId] else base

/-- The validator as the spec's `validate` contract: the accepted list
together with the number of candidates dropped by the amount filter. -/
def validate (today : SimpleDate) (categoryId userId : String)
    (cands : List Candidate) : List Transaction × Nat :=
  (validTransactions today categoryId userId cands,
   cands.length - (cands.filter (fun c => amountOk c.amount)).length)

/-- The state of the caller's candidate array after `validTransactions`
ran: the filter callback mutates in place every candidate that passes the
amount check (candidates dropped for a bad amount are returned before any
field is written). -/
def candidatesAfterValidate (today : SimpleDate) (cands : List Candidate) :
    List Candidate :=
  cands.map (fun c => if amountOk c.amount then fixCandidate today c else c)

/-! ### The orchestrator's persistence step -/

/-- A persisted document as the handler sees it: `prisma.document.create`
returns the nested transactions only when the create included them, so the
document-only fallback create yields `none` here and the response's
`document?.transactions || []` turns that into an empty list. -/
structure PersistedDocument where
  fileName : String
  transactions : Option (List Transaction)
deriving DecidableEq

/-- The persistence step of the handler, with the store's two possible
create calls modelled by success flags: try the full graph (document plus
nested transactions); on failure retry exactly once with the document
alone; if that also fails, fail the request. -/
def persistDocument (fullOk docOnlyOk : Bool) (fileName : String)
    (txs : List Transaction) : Except String PersistedDocument :=
  if fullOk then .ok ⟨fileName, some txs⟩
  else if docOnlyOk then .ok ⟨fileName, none⟩
  else .error "Failed to save document and transactions to database"

/-- The response body's transaction list: `document?.transactions || []`. -/
def responseTransactions (d : PersistedDocument) : List Transaction :=
  d.transactions.getD []

/-! ### Helper lemmas about the validator -/

theorem fixCandidate_amount (today : SimpleDate) (c : Candidate) :
    (fixCandidate today c).amount = c.amount := by
  simp only [fixCandidate]
  split <;> split <;> split <;> rfl

theorem fixCandidate_category (today : SimpleDate) (c : Candidate) :
    (fixCandidate today c).category = c.category := by
  simp only [fixCandidate]
  split <;> split <;> split <;> rfl

theorem fixCandidate_description (today : SimpleDate) (c : Candidate) :
    (fixCandidate today c).description =
      (if jsFalsy c.description || !c.description.isStrB then
        JSValue.str "Unnamed transaction".data
      else c.description) := by
  simp only [fixCandidate]
  split <;> split <;> split <;> simp_all

theorem fixCandidate_description_str (today : SimpleDate) (c : Candidate) :
    ∃ s, (fixCandidate today c).description = JSValue.str s ∧ s ≠ [] := by
  rw [fixCandidate_description]
  cases hcond : (jsFalsy c.description || !c.description.isStrB) with
  | true =>
    exact ⟨"Unnamed transaction".data, by simp, by decide⟩
  | false =>
    simp only [hcond, Bool.false_eq_true, if_false]
    cases hd : c.description <;> rw [hd] at hcond <;>
      simp [jsFalsy, JSValue.isStrB] at hcond ⊢
    exact hcond

theorem parseISODate_valid (s : List Char) (d : SimpleDate)
    (h : parseISODate s = some d) : d.validB = true := by
  unfold parseISODate at h
  split at h
  · split at h
    · split at h
      · rename_i hv
        cases h
        exact hv
      · cases h
    · cases h
  · cases h

theorem jsDateParse_valid (v : JSValue) (d : SimpleDate)
    (h : jsDateParse v = some d) : d.validB = true := by
  cases v <;> simp [jsDateParse] at h
  exact parseISODate_valid _ _ h

theorem toTransaction_date_valid (today : SimpleDate) (a b : String) (c : Candidate)
    (htoday : today.validB = true) :
    (toTransaction today a b c).date.validB = true := by
  unfold toTransaction
  cases h : jsDateParse c.date with
  | none => simpa [h] using htoday
  | some d => simpa [h] using jsDateParse_valid _ _ h

theorem toTransaction_amount_not_nan (today : SimpleDate) (a b : String) (c : Candidate) :
    (toTransaction today a b c).amount ≠ JSNum.nan := by
  unfold toTransaction
  simp only
  split
  · decide
  · rename_i hnan
    intro hcontra
    rw [hcontra] at hnan
    simp [JSNum.isNaNB] at hnan

theorem toTransaction_type (today : SimpleDate) (a b : String) (c : Candidate) :
    (toTransaction today a b c).type =
      (if c.type = JSValue.str "INCOME".data then TxType.INCOME else TxType.EXPENSE) := by
  simp only [toTransaction]

theorem toTransaction_description (today : SimpleDate) (a b : String) (c : Candidate) :
    (toTransaction today a b c).description = (jsToString c.description).take 255 := by
  simp only [toTransaction]

theorem toTransaction_categoryId (today : SimpleDate) (a b : String) (c : Candidate) :
    (toTransaction today a b c).categoryId = a := by
  simp only [toTransaction]

theorem toTransaction_userId (today : SimpleDate) (a b : String) (c : Candidate) :
    (toTransaction today a b c).userId = b := by
  simp only [toTransaction]

theorem mem_validTransactions (today : SimpleDate) (catId uid : String)
    (cs : List Candidate) (t : Transaction) :
    t ∈ validTransactions today catId uid cs ↔
      (acceptedBase today catId uid cs = [] ∧ t = placeholderTx today catId uid) ∨
      t ∈ acceptedBase today catId uid cs := by
  unfold validTransactions
  by_cases h : acceptedBase today catId uid cs = []
  · simp [h]
  · have hne : (acceptedBase today catId uid cs).isEmpty = false := by
      cases hb : acceptedBase today catId uid cs
      · exact absurd hb h
      · rfl
    simp [hne, h]

/-! ### Concrete inputs used by the scenario parts of the claims -/

/-- A representative processing date (the `new Date()` of a run). -/
def sampleToday : SimpleDate := ⟨2025, 6, 15⟩

/-- The scenario amount 42.5, written as the reduced fraction 85/2 so
that kernel evaluation never has to unfold rational division. -/
def ratFortyTwoHalf : ℚ := ⟨85, 2, by decide, by decide⟩

/-- The malformed-fields scenario candidate
`{date:"not-a-date", description:"", amount:42.5, type:"XYZ"}`. -/
def candMalformed : Candidate :=
  ⟨JSValue.str "not-a-date".data, JSValue.str [], JSValue.num (JSNum.fin ratFortyTwoHalf),
   JSValue.str "XYZ".data, JSValue.undef⟩

/-- A candidate whose amount is the numeric-looking string `"42.5"`. -/
def candStringAmount : Candidate :=
  ⟨JSValue.str "2024-01-01".data, JSValue.str "x".data, JSValue.str "42.5".data,
   JSValue.str "EXPENSE".data, JSValue.undef⟩

/-- A candidate with a negative numeric amount. -/
def candNegativeAmount : Candidate :=
  ⟨JSValue.str "2024-01-01".data, JSValue.str "ok".data, JSValue.num (JSNum.fin (-5)),
   JSValue.str "INCOME".data, JSValue.undef⟩

/-- A candidate with a valid amount and an unknown type tag. -/
def candBadType : Candidate :=
  ⟨JSValue.str "2024-01-01".data, JSValue.str "d".data, JSValue.num (JSNum.fin 1),
   JSValue.str "XYZ".data, JSValue.undef⟩

/-- The transaction the validator builds from `candNegativeAmount`. -/
def negTx : Transaction :=
  ⟨⟨2024, 1, 1⟩, "ok".data, JSNum.fin (-5), TxType.INCOME, "cat0", "user0"⟩

/-! ### Claim theorems -/

/-- C1 (code bug): on the input `"Acc0un75ummary R0ya1 8ank"` the
normalizer outputs `"Account5ummary Royal Bank"`, which does NOT contain
`"Account Summary Royal Bank"`: the earlier, shorter table entry
`Acc0un7 → Account` consumes the prefix of `Acc0un75ummary` before the
later, longer entry `Acc0un75ummary → Account Summary` is ever tried, so
that longer entry is unreachable and the spec's scenario fails. -/
theorem cleanText_account_summary_divergence :
    cleanText "Acc0un75ummary R0ya1 8ank" = "Account5ummary Royal Bank" ∧
    occursIn "Account Summary Royal Bank".data
      (cleanText "Acc0un75ummary R0ya1 8ank").data = false :=
  ⟨by decide, by decide⟩

/-- C7: the text normalizer is total and deterministic — for every input
string `cleanText` yields exactly one output string. -/
theorem cleanText_total_deterministic : ∀ s : String, ∃! t : String, cleanText s = t :=
  fun s => ⟨cleanText s, rfl, fun _ h => h.symm⟩

/-- C9: when the full-graph persistence fails and the document-only
persistence succeeds, the handler returns success carrying a document
without nested transactions, and the response's transaction list is empty;
only when the document-only retry also fails does the request abort with a
persistence error. -/
theorem persist_retry_degraded_success :
    ∀ (fileName : String) (txs : List Transaction) (b : Bool),
      persistDocument false true fileName txs = Except.ok ⟨fileName, none⟩ ∧
      responseTransactions ⟨fileName, none⟩ = [] ∧
      persistDocument false false fileName txs =
        Except.error "Failed to save document and transactions to database" ∧
      persistDocument true b fileName txs = Except.ok ⟨fileName, some txs⟩ ∧
      responseTransactions ⟨fileName, some txs⟩ = txs :=
  fun _ _ _ => ⟨rfl, rfl, rfl, rfl, rfl⟩

/-- C4: the accepted list is never empty; an empty batch yields exactly
the placeholder with rejected count 0, and a batch whose candidates all
fail the amount check also yields exactly the placeholder. -/
theorem accepted_never_empty (today : SimpleDate) (catId uid : String)
    (cs : List Candidate) :
    (validate today catId uid cs).1 ≠ [] ∧
    (cs = [] → validate today catId uid cs = ([placeholderTx today catId uid], 0)) ∧
    ((∀ c ∈ cs, amountOk c.amount = false) →
      (validate today catId uid cs).1 = [placeholderTx today catId uid]) := by
  refine ⟨?_, ?_, ?_⟩
  · unfold validate validTransactions
    by_cases h : acceptedBase today catId uid cs = []
    · simp [h]
    · simp [List.isEmpty_iff, h]
  · intro h
    subst h
    rfl
  · intro h
    have hfil : cs.filter (fun c => amountOk c.amount) = [] := by
      rw [List.filter_eq_nil_iff]
      intro a ha
      simp [h a ha]
    unfold validate validTransactions acceptedBase
    rw [hfil]
    rfl

/-- C4 witness: the empty batch. -/
theorem accepted_never_empty_witness :
    validate sampleToday "cat0" "user0" ([] : List Candidate) =
      ([placeholderTx sampleToday "cat0" "user0"], 0) :=
  (accepted_never_empty sampleToday "cat0" "user0" []).2.1 rfl

/-- C2 counterexample: a candidate whose amount is the numeric-looking
string `"42.5"` is dropped by the amount filter (rejected count 1) and the
only accepted transaction is the synthetic placeholder — the candidate is
not coerced and kept as the claim states. -/
theorem amount_string_dropped_cex :
    validate sampleToday "cat0" "user0" [candStringAmount] =
      ([placeholderTx sampleToday "cat0" "user0"], 1) ∧
    amountOk (JSValue.str "42.5".data) = false :=
  ⟨by decide, by decide⟩

/-- C2 (amended): a candidate is dropped by the validator iff its amount
is not a number-typed value or is NaN; a dropped candidate contributes
nothing to the accepted list, a kept one contributes exactly its
sanitized transaction, and string amounts — numeric-looking or not — are
always dropped without coercion. -/
theorem amount_drop_iff_not_number (today : SimpleDate) (catId uid : String)
    (cs₁ cs₂ : List Candidate) (c : Candidate) :
    (amountOk c.amount = false →
      acceptedBase today catId uid (cs₁ ++ c :: cs₂) =
        acceptedBase today catId uid (cs₁ ++ cs₂)) ∧
    (amountOk c.amount = true →
      acceptedBase today catId uid (cs₁ ++ c :: cs₂) =
        acceptedBase today catId uid cs₁ ++
          toTransaction today catId uid (fixCandidate today c) ::
            acceptedBase today catId uid cs₂) ∧
    (∀ s, amountOk (JSValue.str s) = false) ∧
    (∀ q, amountOk (JSValue.num (JSNum.fin q)) = true) ∧
    amountOk (JSValue.num JSNum.nan) = false := by
  refine ⟨?_, ?_, fun s => rfl, fun q => rfl, rfl⟩
  · intro h
    simp [acceptedBase, List.filter_append, List.filter_cons, h]
  · intro h
    simp [acceptedBase, List.filter_append, List.filter_cons, h]

/-- C2 witness: the string-amount candidate is dropped and contributes
nothing. -/
theorem amount_drop_iff_not_number_witness :
    amountOk candStringAmount.amount = false ∧
    acceptedBase sampleToday "cat0" "user0" ([] ++ candStringAmount :: []) =
      acceptedBase sampleToday "cat0" "user0" ([] ++ []) :=
  ⟨by decide,
   (amount_drop_iff_not_number sampleToday "cat0" "user0" [] [] candStringAmount).1
     (by decide)⟩

/-- C3 counterexample: the candidate with amount `-5` is accepted and the
persisted transaction carries the negative amount `-5`, so not every
accepted transaction has a non-negative amount. -/
theorem negative_amount_accepted_cex :
    ¬ (∀ t ∈ validTransactions sampleToday "cat0" "user0" [candNegativeAmount],
        ∃ q : ℚ, t.amount = JSNum.fin q ∧ 0 ≤ q) := by
  intro hall
  have hmem : negTx ∈ validTransactions sampleToday "cat0" "user0" [candNegativeAmount] := by
    decide
  obtain ⟨q, hq, hq0⟩ := hall _ hmem
  have hq2 : JSNum.fin (-5) = JSNum.fin q := hq
  injection hq2 with h5
  rw [← h5] at hq0
  exact absurd hq0 (by decide)

/-- C3 (amended): every transaction the validator accepts — including the
placeholder — has a valid calendar date, a type in the closed enum, an
amount that is a number and not NaN (though possibly negative or
infinite), and a non-empty description of at most 255 characters. -/
theorem accepted_transaction_invariants (today : SimpleDate) (catId uid : String)
    (cs : List Candidate) (htoday : today.validB = true) :
    ∀ t ∈ validTransactions today catId uid cs,
      t.date.validB = true ∧ (t.type = TxType.INCOME ∨ t.type = TxType.EXPENSE) ∧
      t.amount ≠ JSNum.nan ∧ t.description ≠ [] ∧ t.description.length ≤ 255 := by
  intro t ht
  rw [mem_validTransactions] at ht
  rcases ht with ⟨-, rfl⟩ | ht
  · refine ⟨htoday, Or.inr rfl, ?_, ?_, ?_⟩
    · show JSNum.fin 100 ≠ JSNum.nan
      decide
    · show defaultTxDescription ≠ []
      decide
    · show defaultTxDescription.length ≤ 255
      decide
  · unfold acceptedBase at ht
    rw [List.mem_map] at ht
    obtain ⟨c, hc, rfl⟩ := ht
    obtain ⟨s, hs, hne⟩ := fixCandidate_description_str today c
    refine ⟨toTransaction_date_valid _ _ _ _ htoday, ?_,
      toTransaction_amount_not_nan _ _ _ _, ?_, ?_⟩
    · rw [toTransaction_type]
      by_cases h : (fixCandidate today c).type = JSValue.str "INCOME".data <;> simp [h]
    · rw [toTransaction_description, hs]
      simp only [jsToString]
      rw [Ne, List.take_eq_nil_iff]
      simp [hne]
    · rw [toTransaction_description, hs]
      simp only [jsToString, List.length_take]
      omega

/-- C3 witness for the amended invariant, at the empty batch and a
concrete valid processing date. -/
theorem accepted_transaction_invariants_witness :
    SimpleDate.validB sampleToday = true ∧
    ∀ t ∈ validTransactions sampleToday "cat0" "user0" [],
      t.date.validB = true ∧ (t.type = TxType.INCOME ∨ t.type = TxType.EXPENSE) ∧
      t.amount ≠ JSNum.nan ∧ t.description ≠ [] ∧ t.description.length ≤ 255 :=
  ⟨by decide,
   accepted_transaction_invariants sampleToday "cat0" "user0" [] (by decide)⟩

/-- C5: a candidate whose amount is a number and not NaN always survives
validation (its sanitized transaction is in the accepted list), no matter
how malformed the other fields are; and the scenario candidate
`{date:"not-a-date", description:"", amount:42.5, type:"XYZ"}` yields
exactly one accepted transaction with type EXPENSE, the placeholder
description, the current processing date, and amount 42.5. -/
theorem valid_amount_survives :
    (∀ (today : SimpleDate) (catId uid : String) (cs : List Candidate) (c : Candidate),
      c ∈ cs → amountOk c.amount = true →
        toTransaction today catId uid (fixCandidate today c) ∈
          validTransactions today catId uid cs) ∧
    validate sampleToday "cat0" "user0" [candMalformed] =
      ([{ date := sampleToday, description := "Unnamed transaction".data,
          amount := JSNum.fin ratFortyTwoHalf, type := TxType.EXPENSE,
          categoryId := "cat0", userId := "user0" }], 0) := by
  constructor
  · intro today catId uid cs c hc ha
    have hmem : toTransaction today catId uid (fixCandidate today c) ∈
        acceptedBase today catId uid cs := by
      unfold acceptedBase
      exact List.mem_map_of_mem _ (List.mem_filter.mpr ⟨hc, ha⟩)
    unfold validTransactions
    have hne : acceptedBase today catId uid cs ≠ [] := by
      intro hb
      rw [hb] at hmem
      cases hmem
    simp [List.isEmpty_iff, hne, hmem]
  · decide

/-- C5 witness: the scenario candidate survives via the universal part. -/
theorem valid_amount_survives_witness :
    candMalformed ∈ [candMalformed] ∧ amountOk candMalformed.amount = true ∧
    toTransaction sampleToday "cat0" "user0" (fixCandidate sampleToday candMalformed) ∈
      validTransactions sampleToday "cat0" "user0" [candMalformed] :=
  ⟨by decide, by decide,
   valid_amount_survives.1 sampleToday "cat0" "user0" [candMalformed] candMalformed
     (by decide) (by decide)⟩

/-- C6 counterexample: validation is not free of side effects on its
input — after the filter runs, the caller's candidate array has been
mutated in place (the unknown type tag has been overwritten with
EXPENSE), so the input list and its elements are not unchanged. -/
theorem validator_mutates_input_cex :
    candidatesAfterValidate sampleToday [candBadType] ≠ [candBadType] := by decide

/-- C6 (amended): the validator performs no persistence, but it mutates in
place every candidate that passes the amount check (writing the
type/date/description fallbacks into it); it preserves the list length,
leaves amount-dropped candidates untouched, and never alters the amount
or category fields of any candidate. -/
theorem validator_frame_properties (today : SimpleDate) (cs : List Candidate) :
    (candidatesAfterValidate today cs).length = cs.length ∧
    (∀ c ∈ cs, amountOk c.amount = false → c ∈ candidatesAfterValidate today cs) ∧
    (∀ c : Candidate, (fixCandidate today c).amount = c.amount ∧
      (fixCandidate today c).category = c.category) := by
  refine ⟨by simp [candidatesAfterValidate], ?_,
    fun c => ⟨fixCandidate_amount _ _, fixCandidate_category _ _⟩⟩
  intro c hc h
  have hmm := List.mem_map_of_mem
    (fun c => if amountOk c.amount then fixCandidate today c else c) hc
  simpa [candidatesAfterValidate, h] using hmm

/-- C6 witness: a dropped candidate is returned unchanged. -/
theorem validator_frame_properties_witness :
    candStringAmount ∈ [candStringAmount] ∧
    amountOk candStringAmount.amount = false ∧
    candStringAmount ∈ candidatesAfterValidate sampleToday [candStringAmount] :=
  ⟨by decide, by decide,
   (validator_frame_properties sampleToday [candStringAmount]).2.1 candStringAmount
     (by decide) (by decide)⟩

theorem fixCandidate_category_update (today : SimpleDate) (c : Candidate) (v : JSValue) :
    fixCandidate today { c with category := v } =
      { fixCandidate today c with category := v } := by
  simp only [fixCandidate]
  split <;> split <;> split <;> simp_all

theorem toTransaction_category_update (today : SimpleDate) (a b : String)
    (c : Candidate) (v : JSValue) :
    toTransaction today a b { c with category := v } = toTransaction today a b c := rfl

/-- C10: every transaction the validator produces — the placeholder
included — carries the supplied default category id and user id, and the
candidates' own category fields never influence the output. -/
theorem default_category_user_assignment (today : SimpleDate) (catId uid : String)
    (cs : List Candidate) :
    (∀ t ∈ validTransactions today catId uid cs, t.categoryId = catId ∧ t.userId = uid) ∧
    (∀ f : Candidate → JSValue,
      validTransactions today catId uid (cs.map fun c => { c with category := f c }) =
        validTransactions today catId uid cs) := by
  constructor
  · intro t ht
    rw [mem_validTransactions] at ht
    rcases ht with ⟨-, rfl⟩ | ht
    · exact ⟨rfl, rfl⟩
    · unfold acceptedBase at ht
      rw [List.mem_map] at ht
      obtain ⟨c, -, rfl⟩ := ht
      exact ⟨toTransaction_categoryId _ _ _ _, toTransaction_userId _ _ _ _⟩
  · intro f
    have hbase : ∀ l : List Candidate,
        acceptedBase today catId uid (l.map fun c => { c with category := f c }) =
          acceptedBase today catId uid l := by
      intro l
      induction l with
      | nil => rfl
      | cons c cst ih =>
        unfold acceptedBase at ih ⊢
        simp only [List.map_cons, List.filter_cons]
        have hA : amountOk ({ c with category := f c } : Candidate).amount =
            amountOk c.amount := rfl
        rw [hA]
        cases h : amountOk c.amount with
        | true =>
          simp [fixCandidate_category_update, toTransaction_category_update, ih]
        | false =>
          simp [ih]
    unfold validTransactions
    rw [hbase]

/-- C10 witness: the placeholder of the empty batch carries the defaults. -/
theorem default_category_user_assignment_witness :
    placeholderTx sampleToday "cat0" "user0" ∈
      validTransactions sampleToday "cat0" "user0" [] ∧
    (placeholderTx sampleToday "cat0" "user0").categoryId = "cat0" ∧
    (placeholderTx sampleToday "cat0" "user0").userId = "user0" :=
  ⟨by decide,
   (default_category_user_assignment sampleToday "cat0" "user0" []).1 _ (by decide)⟩

/-! ### Idempotence of the normalizer on digit-group text

"Well-formed digit-group text already correctly spaced" is formalized as
text over digits and hyphens only (the account-number digit-group shapes
of the fourth pass, with no spurious whitespace).  On such text every pass
of `cleanTextL` is the identity, hence `cleanText` is idempotent there. -/

def isDigitGroupChar (c : Char) : Bool := isDigitCh c || c == '-'

def isDigitGroupText (l : List Char) : Bool := l.all isDigitGroupChar

theorem dg_not_ws (c : Char) (h : isDigitGroupChar c = true) : isWsCh c = false := by
  rw [isDigitGroupChar, Bool.or_eq_true] at h
  rcases h with h | h
  · simp only [isDigitCh, Bool.and_eq_true, decide_eq_true_eq] at h
    simp only [isWsCh, Bool.or_eq_false_iff, beq_eq_false_iff_ne, ne_eq]
    refine ⟨⟨⟨⟨⟨?_, ?_⟩, ?_⟩, ?_⟩, ?_⟩, ?_⟩ <;> intro hc
    · subst hc; exact absurd h (by decide)
    · subst hc; exact absurd h (by decide)
    · subst hc; exact absurd h (by decide)
    · subst hc; exact absurd h (by decide)
    · omega
    · omega
  · have hc : c = '-' := by simpa using h
    subst hc; decide

theorem dg_not_alpha (c : Char) (h : isDigitGroupChar c = true) : isAlphaCh c = false := by
  rw [isDigitGroupChar, Bool.or_eq_true] at h
  rcases h with h | h
  · simp only [isDigitCh, Bool.and_eq_true, decide_eq_true_eq] at h
    simp only [isAlphaCh, Bool.or_eq_false_iff, Bool.and_eq_false_iff,
      decide_eq_false_iff_not, not_le]
    omega
  · have hc : c = '-' := by simpa using h
    subst hc; decide

theorem takeRun_ws_dg (l : List Char) (hl : ∀ x ∈ l, isDigitGroupChar x = true) :
    takeRun isWsCh l = ([], l) := by
  cases l with
  | nil => rfl
  | cons c cs => simp [takeRun, dg_not_ws c (hl c (by simp))]

theorem takeRun_alpha_dg (l : List Char) (hl : ∀ x ∈ l, isDigitGroupChar x = true) :
    takeRun isAlphaCh l = ([], l) := by
  cases l with
  | nil => rfl
  | cons c cs => simp [takeRun, dg_not_alpha c (hl c (by simp))]

theorem tryCollapse_none_dg (p1 p2 : Char → Bool) (l : List Char)
    (hl : ∀ x ∈ l, isDigitGroupChar x = true) : tryCollapse p1 p2 l = none := by
  cases l with
  | nil => rfl
  | cons c cs =>
    have hcs : takeRun isWsCh cs = ([], cs) :=
      takeRun_ws_dg cs (fun x hx => hl x (by simp [hx]))
    simp only [tryCollapse, hcs]
    split <;> rfl

theorem tryDayMonthTail_none_dg (ds l : List Char)
    (hl : ∀ x ∈ l, isDigitGroupChar x = true) : tryDayMonthTail ds l = none := by
  simp only [tryDayMonthTail, takeRun_ws_dg l hl]

theorem tryDayMonth_none_dg (l : List Char)
    (hl : ∀ x ∈ l, isDigitGroupChar x = true) : tryDayMonth l = none := by
  match l with
  | [] => rfl
  | [c1] =>
    simp only [tryDayMonth, tryDayMonthTail_none_dg [c1] [] (by simp)]
    split <;> rfl
  | c1 :: c2 :: rest =>
    have h1 : tryDayMonthTail [c1, c2] rest = none :=
      tryDayMonthTail_none_dg _ _ (fun x hx => hl x (by simp [hx]))
    have h2 : tryDayMonthTail [c1] (c2 :: rest) = none :=
      tryDayMonthTail_none_dg _ _ (fun x hx => hl x (by simp at hx; simp [hx]))
    simp only [tryDayMonth, h1, h2]
    split <;> first | rfl | (split <;> rfl)

theorem tryMonthDay_none_dg (l : List Char)
    (hl : ∀ x ∈ l, isDigitGroupChar x = true) : tryMonthDay l = none := by
  simp only [tryMonthDay, takeRun_alpha_dg l hl]

theorem takeDigits_sound :
    ∀ (n : Nat) (l ds r : List Char), takeDigits n l = some (ds, r) →
      ds ++ r = l ∧ ds.length = n := by
  intro n
  induction n with
  | zero =>
    intro l ds r h
    simp only [takeDigits, Option.some.injEq, Prod.mk.injEq] at h
    obtain ⟨h1, h2⟩ := h
    subst h1; subst h2
    exact ⟨rfl, rfl⟩
  | succ n ih =>
    intro l ds r h
    cases l with
    | nil => cases h
    | cons c cs =>
      simp only [takeDigits] at h
      split at h
      · split at h
        · rename_i ds' r' heq
          simp only [Option.some.injEq, Prod.mk.injEq] at h
          obtain ⟨h1, h2⟩ := h
          subst h1; subst h2
          obtain ⟨hsp, hlen⟩ := ih cs ds' r' heq
          constructor
          · simp [← hsp]
          · simp [hlen]
        · cases h
      · cases h

theorem tryAcct_span (a b c : Nat) (l rep rest : List Char)
    (hl : ∀ x ∈ l, isDigitGroupChar x = true)
    (h : tryAcct a b c l = some (rep, rest)) :
    rep ++ rest = l ∧ rep ≠ [] := by
  unfold tryAcct at h
  cases h1 : takeDigits a l with
  | none => rw [h1] at h; cases h
  | some pr1 =>
    obtain ⟨d1, l1⟩ := pr1
    rw [h1] at h
    dsimp only at h
    obtain ⟨hsp1, -⟩ := takeDigits_sound a l d1 l1 h1
    have hl1 : ∀ x ∈ l1, isDigitGroupChar x = true := fun x hx =>
      hl x (by rw [← hsp1]; exact List.mem_append_right _ hx)
    rw [takeRun_ws_dg l1 hl1] at h
    dsimp only at h
    split at h
    · rename_i l3
      have hl3 : ∀ x ∈ l3, isDigitGroupChar x = true := fun x hx =>
        hl1 x (List.mem_cons_of_mem _ hx)
      rw [takeRun_ws_dg l3 hl3] at h
      dsimp only at h
      cases h2 : takeDigits b l3 with
      | none => rw [h2] at h; cases h
      | some pr2 =>
        obtain ⟨d2, l5⟩ := pr2
        rw [h2] at h
        dsimp only at h
        obtain ⟨hsp2, -⟩ := takeDigits_sound b l3 d2 l5 h2
        have hl5 : ∀ x ∈ l5, isDigitGroupChar x = true := fun x hx =>
          hl3 x (by rw [← hsp2]; exact List.mem_append_right _ hx)
        rw [takeRun_ws_dg l5 hl5] at h
        dsimp only at h
        split at h
        · rename_i l7
          have hl7 : ∀ x ∈ l7, isDigitGroupChar x = true := fun x hx =>
            hl5 x (List.mem_cons_of_mem _ hx)
          rw [takeRun_ws_dg l7 hl7] at h
          dsimp only at h
          cases h3 : takeDigits c l7 with
          | none => rw [h3] at h; cases h
          | some pr3 =>
            obtain ⟨d3, l9⟩ := pr3
            rw [h3] at h
            dsimp only at h
            obtain ⟨hsp3, -⟩ := takeDigits_sound c l7 d3 l9 h3
            simp only [Option.some.injEq, Prod.mk.injEq] at h
            obtain ⟨hrep, hrest⟩ := h
            subst hrep; subst hrest
            constructor
            · rw [← hsp1, ← hsp2, ← hsp3]
              simp
            · intro habs
              cases d1 <;> simp_all
        · cases h
    · cases h

/-- On digit-group text a pass whose `try` function either never matches
or reproduces exactly the span it consumed is the identity. -/
theorem scanWithF_id_dg (t : List Char → Option (List Char × List Char))
    (ht : ∀ l, (∀ x ∈ l, isDigitGroupChar x = true) →
      t l = none ∨ ∃ rep rest, t l = some (rep, rest) ∧ rep ++ rest = l ∧ rep ≠ []) :
    ∀ (fuel : Nat) (l : List Char), l.length ≤ fuel →
      (∀ x ∈ l, isDigitGroupChar x = true) → scanWithF t fuel l = l := by
  intro fuel
  induction fuel with
  | zero => intro l _ _; rfl
  | succ n ih =>
    intro l hf hl
    cases l with
    | nil => rfl
    | cons c cs =>
      rcases ht (c :: cs) hl with hnone | ⟨rep, rest, hsome, hspan, hne⟩
      · simp only [scanWithF, hnone]
        rw [ih cs (by simpa using Nat.le_of_succ_le_succ hf)
          (fun x hx => hl x (List.mem_cons_of_mem _ hx))]
      · have hlen : rep.length + rest.length = cs.length + 1 := by
          have := congrArg List.length hspan
          simpa using this
        have hrep1 : 1 ≤ rep.length := by
          cases rep with
          | nil => exact absurd rfl hne
          | cons _ _ => simp
        have hlt : rest.length < cs.length + 1 := by omega
        simp only [scanWithF, hsome, if_pos hlt]
        rw [ih rest (by simp only [List.length_cons] at hf; omega)
          (fun x hx => hl x (by rw [← hspan]; exact List.mem_append_right _ hx))]
        exact hspan

theorem scanWith_id_dg (t : List Char → Option (List Char × List Char))
    (ht : ∀ l, (∀ x ∈ l, isDigitGroupChar x = true) →
      t l = none ∨ ∃ rep rest, t l = some (rep, rest) ∧ rep ++ rest = l ∧ rep ≠ [])
    (l : List Char) (hl : ∀ x ∈ l, isDigitGroupChar x = true) :
    scanWith t l = l :=
  scanWithF_id_dg t ht l.length l le_rfl hl

/-- None of the substitution-table patterns can occur in digit-group text:
every pattern contains a letter. -/
theorem matchesAt_no_alpha :
    ∀ (pat l : List Char), pat.any isAlphaCh = true →
      (∀ x ∈ l, isDigitGroupChar x = true) → matchesAt pat l = false := by
  intro pat
  induction pat with
  | nil => intro l hp _; simp at hp
  | cons p ps ih =>
    intro l hp hl
    cases l with
    | nil => rfl
    | cons c cs =>
      simp only [matchesAt, Bool.and_eq_false_iff]
      by_cases hpc : (p == c) = true
      · right
        have hp' : ps.any isAlphaCh = true := by
          have hc : p = c := by simpa using hpc
          subst hc
          have : isAlphaCh p = false := dg_not_alpha p (hl p (by simp))
          simpa [this] using hp
        exact ih cs hp' (fun x hx => hl x (List.mem_cons_of_mem _ hx))
      · left
        simpa using hpc

theorem replaceAllF_id_dg :
    ∀ (fuel : Nat) (pat rep l : List Char), pat.any isAlphaCh = true →
      (∀ x ∈ l, isDigitGroupChar x = true) → replaceAllF pat rep fuel l = l := by
  intro fuel
  induction fuel with
  | zero => intro pat rep l _ _; rfl
  | succ n ih =>
    intro pat rep l hp hl
    cases l with
    | nil => rfl
    | cons c cs =>
      cases pat with
      | nil => simp at hp
      | cons p ps =>
        have hm : matchesAt (p :: ps) (c :: cs) = false :=
          matchesAt_no_alpha (p :: ps) (c :: cs) hp hl
        simp only [replaceAllF, hm, Bool.false_eq_true, if_false]
        rw [ih (p :: ps) rep cs hp (fun x hx => hl x (List.mem_cons_of_mem _ hx))]

theorem replaceAll_id_dg (pat rep l : List Char) (hp : pat.any isAlphaCh = true)
    (hl : ∀ x ∈ l, isDigitGroupChar x = true) : replaceAll pat rep l = l :=
  replaceAllF_id_dg l.length pat rep l hp hl

/-- Every entry of the substitution table has a letter in its pattern. -/
theorem replacementTable_alpha :
    replacementTable.all (fun pr => pr.1.data.any isAlphaCh) = true := by decide

theorem substitutionPass_id_dg (l : List Char)
    (hl : ∀ x ∈ l, isDigitGroupChar x = true) : substitutionPass l = l := by
  unfold substitutionPass
  have htbl := List.all_eq_true.mp replacementTable_alpha
  revert htbl
  generalize replacementTable = tbl
  intro htbl
  induction tbl with
  | nil => rfl
  | cons pr tl ih =>
    rw [List.foldl_cons, replaceAll_id_dg pr.1.data pr.2.data l (htbl pr (by simp)) hl]
    exact ih (fun x hx => htbl x (List.mem_cons_of_mem _ hx))

/-- The `try` property needed by `scanWith_id_dg` for the account-number
passes. -/
theorem tryAcct_prop_dg (a b c : Nat) :
    ∀ l, (∀ x ∈ l, isDigitGroupChar x = true) →
      tryAcct a b c l = none ∨
        ∃ rep rest, tryAcct a b c l = some (rep, rest) ∧ rep ++ rest = l ∧ rep ≠ [] := by
  intro l hl
  cases h : tryAcct a b c l with
  | none => exact Or.inl rfl
  | some pr =>
    obtain ⟨rep, rest⟩ := pr
    obtain ⟨hspan, hne⟩ := tryAcct_span a b c l rep rest hl h
    exact Or.inr ⟨rep, rest, rfl, hspan, hne⟩

/-- On digit-and-hyphen-only text, the whole normalizer is the identity. -/
theorem cleanTextL_id_dg (l : List Char) (hl : isDigitGroupText l = true) :
    cleanTextL l = l := by
  have hl' : ∀ x ∈ l, isDigitGroupChar x = true := List.all_eq_true.mp hl
  unfold cleanTextL
  rw [substitutionPass_id_dg l hl',
    scanWith_id_dg _ (fun m hm => Or.inl (tryCollapse_none_dg _ _ m hm)) l hl',
    scanWith_id_dg _ (fun m hm => Or.inl (tryCollapse_none_dg _ _ m hm)) l hl',
    scanWith_id_dg _ (fun m hm => Or.inl (tryCollapse_none_dg _ _ m hm)) l hl',
    scanWith_id_dg _ (fun m hm => Or.inl (tryCollapse_none_dg _ _ m hm)) l hl',
    scanWith_id_dg _ (fun m hm => Or.inl (tryDayMonth_none_dg m hm)) l hl',
    scanWith_id_dg _ (fun m hm => Or.inl (tryMonthDay_none_dg m hm)) l hl',
    scanWith_id_dg _ (tryAcct_prop_dg 4 3 3) l hl',
    scanWith_id_dg _ (tryAcct_prop_dg 3 4 4) l hl']

/-- C8: on well-formed digit-group text that is already correctly spaced
(text over digits and hyphens with no spurious whitespace, the
account-number digit-group shapes), the normalizer is idempotent. -/
theorem cleanText_idempotent_on_digit_groups (x : String)
    (h : isDigitGroupText x.data = true) :
    cleanText (cleanText x) = cleanText x := by
  have hx : cleanText x = x := by
    unfold cleanText
    rw [cleanTextL_id_dg x.data h]
  rw [hx]
  exact hx

/-- C8 witness: a correctly spaced 4-3-3 account number. -/
theorem cleanText_idempotent_on_digit_groups_witness :
    cleanText (cleanText "1234-567-890") = cleanText "1234-567-890" :=
  cleanText_idempotent_on_digit_groups "1234-567-890" (by decide)
